import Mathlib

/-!
Verification of the STL codec in `src/stl.rs` (binary/ASCII triangle-mesh
decoding, vertex indexing, binary encoding, manifold validation).

Modelling conventions, stated once here:

* An `f32` is modelled in two ways, matching the two ways the source uses it.
  Where the source treats vertex components as opaque bit patterns (the binary
  wire format moves the four little-endian bytes verbatim, and the indexer keys
  its hash map on the `transmute`d `[u32; 3]` bit pattern), a component is its
  bit pattern, a `Nat` below `2 ^ 32`.  Where the source does arithmetic on
  components (`tri_area`, the `eq_e!` comparison), a component is an exact
  rational `ℚ`: every concrete input evaluated in the theorems below uses small
  integers for which the `f32` computations of the source are exact, except for
  the final square root of `tri_area`, which is eliminated by squaring the
  comparison (for `0 ≤ x`, `Real.sqrt x * 0.5 < eps ↔ x < 4 * eps ^ 2`).
* Byte sources (`std::io::Read + Seek`) are in-memory byte lists with a read
  position, the model of `std::io::Cursor`: `Read::read` returns
  `min(requested, remaining)` bytes and never fails, `read_exact` fails iff
  fewer bytes remain than requested, `Seek::seek(Start 0)` always succeeds.
  All inputs considered fit inside one `BufReader` buffer, so buffered reads
  see the whole remaining input.
* Rust `HashMap` is modelled as an association list with replace-on-insert;
  the source only ever asks a map for membership, lookup, removal and
  insertion, none of which depend on iteration order.  The one place iteration
  order leaks (`unconnected_edges.values().next()` picking the reported
  unmatched edge) is documented at the definition.
-/

namespace Stl

/-- The `Vec3<F>` of the source: an ordered triple of components
(`pub struct Vec3<F>([F; 3])`). -/
structure Vec3 (F : Type) where
  a0 : F
  a1 : F
  a2 : F
deriving DecidableEq, Repr

/-- Component access `v[i]` of the source's `Index` impl. -/
def Vec3.get {F : Type} (v : Vec3 F) : Fin 3 → F
  | 0 => v.a0
  | 1 => v.a1
  | 2 => v.a2

/-- The components in index order, as iterated by `&t.normal.0` etc. -/
def Vec3.toList {F : Type} (v : Vec3 F) : List F := [v.a0, v.a1, v.a2]

/-- The `Triangle` of the source: a normal vector plus three vertices
(`normal : NormalV, vertices : [Vertex; 3]`). -/
structure Triangle (F : Type) where
  normal : Vec3 F
  v0 : Vec3 F
  v1 : Vec3 F
  v2 : Vec3 F
deriving DecidableEq, Repr

/-- Vertex access `t.vertices[i]`. -/
def Triangle.vtx {F : Type} (t : Triangle F) : Fin 3 → Vec3 F
  | 0 => t.v0
  | 1 => t.v1
  | 2 => t.v2

/-- The `IndexedTriangle` of the source: a normal plus three indices into a
vertex list (`normal : NormalV, vertices : [usize; 3]`). -/
structure IndexedTriangle (F : Type) where
  normal : Vec3 F
  i0 : Nat
  i1 : Nat
  i2 : Nat
deriving DecidableEq, Repr

/-- Index access `face.vertices[i]`. -/
def IndexedTriangle.idx {F : Type} (f : IndexedTriangle F) : Fin 3 → Nat
  | 0 => f.i0
  | 1 => f.i1
  | 2 => f.i2

/-- The `IndexedMesh` of the source: a vertex list and a face list. -/
structure IndexedMesh (F : Type) where
  vertices : List (Vec3 F)
  faces : List (IndexedTriangle F)
deriving DecidableEq, Repr

/-! ## Byte-level model of the binary wire format

Components are `f32` bit patterns (`Nat` below `2 ^ 32`); `f32::to_le_bytes` /
`f32::from_le_bytes` move the four little-endian bytes of the pattern. -/

/-- The four little-endian bytes of a 32-bit value, `to_le_bytes` (a `Nat` at
or above `2 ^ 32` is truncated, the `as u32` cast of the source). -/
def leBytes4 (n : Nat) : List Nat :=
  [n % 256, n / 256 % 256, n / 65536 % 256, n / 16777216 % 256]

/-- `from_le_bytes`: recompose a little-endian byte list into a value. -/
def leNat (bs : List Nat) : Nat :=
  bs.foldr (fun b acc => b + 256 * acc) 0

/-- An in-memory byte source with a read position (`std::io::Cursor`). -/
structure ByteCursor where
  bytes : List Nat
  pos : Nat
deriving DecidableEq, Repr

/-- `Read::read` into an `n`-byte zero-initialised buffer: takes
`min(n, remaining)` bytes, leaves the rest of the buffer at `0`, never fails.
The returned byte count is ignored by the source (`self.reader.read(..)?`
discards it), so the model returns only the buffer and the advanced cursor. -/
def readUpto (c : ByteCursor) (n : Nat) : List Nat × ByteCursor :=
  let got := (c.bytes.drop c.pos).take n
  (got ++ List.replicate (n - got.length) 0, ⟨c.bytes, c.pos + got.length⟩)

/-- `Read::read_exact`: fails (with `UnexpectedEof`) iff fewer than `n` bytes
remain, otherwise consumes exactly `n`. -/
def readExact (c : ByteCursor) (n : Nat) : Option ByteCursor :=
  if c.pos + n ≤ c.bytes.length then some ⟨c.bytes, c.pos + n⟩ else none

/-- The I/O-level failure a binary read can produce in this model. -/
inductive BinErr where
  | unexpectedEof
deriving DecidableEq, Repr

/-- One `f32` field read of `BinaryStlReader::next_face`:
`self.reader.read(&mut f32_buf)?; f32::from_le_bytes(f32_buf)` with a 4-byte
zero-initialised buffer and the count ignored. -/
def readF32Pat (c : ByteCursor) : Nat × ByteCursor :=
  let (bs, c') := readUpto c 4
  (leNat bs, c')

/-- `BinaryStlReader::next_face`: 3 normal components, 9 vertex components,
then the attribute read — which the source performs with a FOUR-byte buffer
(`let mut u16_buf = [0; 4]; self.reader.read(&mut u16_buf)?;`) although the
wire format's attribute field is two bytes wide. -/
def next_face (c : ByteCursor) : Triangle Nat × ByteCursor :=
  let (n0, c) := readF32Pat c
  let (n1, c) := readF32Pat c
  let (n2, c) := readF32Pat c
  let (a0, c) := readF32Pat c
  let (a1, c) := readF32Pat c
  let (a2, c) := readF32Pat c
  let (b0, c) := readF32Pat c
  let (b1, c) := readF32Pat c
  let (b2, c) := readF32Pat c
  let (d0, c) := readF32Pat c
  let (d1, c) := readF32Pat c
  let (d2, c) := readF32Pat c
  let (_, c) := readUpto c 4
  (⟨⟨n0, n1, n2⟩, ⟨a0, a1, a2⟩, ⟨b0, b1, b2⟩, ⟨d0, d1, d2⟩⟩, c)

/-- `BinaryStlReader::create_triangle_iterator`: `read_exact` the 80-byte
header (propagating its `UnexpectedEof`), then read the 4-byte count with
plain `read` (zero-padded on a short read, no error), yielding the declared
face count and the cursor positioned at the first record. -/
def createBinary (c : ByteCursor) : Except BinErr (Nat × ByteCursor) :=
  match readExact c 80 with
  | none => .error .unexpectedEof
  | some c =>
    let (bs, c) := readUpto c 4
    .ok (leNat bs, c)

/-- The iterator of `BinaryStlReader`: yields `size` faces then ends. -/
def readFaces : Nat → ByteCursor → List (Triangle Nat)
  | 0, _ => []
  | k + 1, c =>
    let (t, c') := next_face c
    t :: readFaces k c'

/-- Decoding a whole binary source: construct the reader, then drain the
iterator. -/
def binaryDecodeAll (bytes : List Nat) : Except BinErr (List (Triangle Nat)) :=
  match createBinary ⟨bytes, 0⟩ with
  | .error e => .error e
  | .ok (n, c) => .ok (readFaces n c)

/-- `write_stl` for one triangle: 12 little-endian `f32` fields followed by
the two-byte zero attribute field (`u16::to_le_bytes(0)`). -/
def encodeTriangle (t : Triangle Nat) : List Nat :=
  leBytes4 t.normal.a0 ++ leBytes4 t.normal.a1 ++ leBytes4 t.normal.a2 ++
  leBytes4 t.v0.a0 ++ leBytes4 t.v0.a1 ++ leBytes4 t.v0.a2 ++
  leBytes4 t.v1.a0 ++ leBytes4 t.v1.a1 ++ leBytes4 t.v1.a2 ++
  leBytes4 t.v2.a0 ++ leBytes4 t.v2.a1 ++ leBytes4 t.v2.a2 ++
  [0, 0]

/-- `write_stl`: 80 zero header bytes, the length as a little-endian `u32`
(`mesh.len() as u32`), then each triangle's record. -/
def write_stl (ts : List (Triangle Nat)) : List Nat :=
  List.replicate 80 0 ++ leBytes4 ts.length ++ ts.flatMap encodeTriangle

/-- The all-zero-pattern triangle. -/
def zeroTri : Triangle Nat := ⟨⟨0, 0, 0⟩, ⟨0, 0, 0⟩, ⟨0, 0, 0⟩, ⟨0, 0, 0⟩⟩

/-- A triangle whose first normal component has bit pattern `1`. -/
def oneTri : Triangle Nat := ⟨⟨1, 0, 0⟩, ⟨0, 0, 0⟩, ⟨0, 0, 0⟩, ⟨0, 0, 0⟩⟩

/-! ## Arithmetic model: `eq_e!`, `tri_area`, `validate`

Components are exact rationals here (see the header comment). -/

/-- `static DEFAULT_EPSILON: f32 = 1e-6`. -/
def DEFAULT_EPSILON : ℚ := 1 / 1000000

/-- `f32::EPSILON = 2 ^ (-23)`, the threshold of the zero-area check. -/
def f32EPS : ℚ := 1 / 8388608

/-- The body of the `eq_e!` macro: `($v2 - $v2).abs() < $ep`.  Note that the
first operand `$v1` does not occur in the expansion — the macro compares the
second operand with itself. -/
def eq_e (v1 v2 ep : ℚ) : Bool := decide (|v2 - v2| < ep)

/-- `impl PartialEq for Vec3<f32>`: `eq_e!` on each component pair with
`DEFAULT_EPSILON`. -/
def vec3PartialEq (a b : Vec3 ℚ) : Bool :=
  eq_e a.a0 b.a0 DEFAULT_EPSILON && eq_e a.a1 b.a1 DEFAULT_EPSILON &&
    eq_e a.a2 b.a2 DEFAULT_EPSILON

/-- The `cross` helper of `tri_area`. -/
def cross (a b : Vec3 ℚ) : Vec3 ℚ :=
  ⟨a.a1 * b.a2 - a.a2 * b.a1, a.a2 * b.a0 - a.a0 * b.a2, a.a0 * b.a1 - a.a1 * b.a0⟩

/-- The `sub` helper of `tri_area`. -/
def subv (a b : Vec3 ℚ) : Vec3 ℚ := ⟨a.a0 - b.a0, a.a1 - b.a1, a.a2 - b.a2⟩

/-- The squared `length` of `tri_area` (before its square root). -/
def normSq (v : Vec3 ℚ) : ℚ := v.a0 * v.a0 + v.a1 * v.a1 + v.a2 * v.a2

/-- The degeneracy test of `validate`: the source computes
`tri_area(a, b, c) < f32::EPSILON` with
`tri_area = length(cross(sub(c, b), sub(a, b))) * 0.5`.  The square root of
`length` is eliminated by squaring the (nonnegative-operand) comparison:
for `0 ≤ x`, `sqrt x * 0.5 < eps ↔ x < 4 * eps ^ 2`. -/
def triAreaBelowEps (a b c : Vec3 ℚ) : Bool :=
  decide (normSq (cross (subv c b) (subv a b)) < 4 * f32EPS ^ 2)

/-- The zero vector, the value `Vec3::default()` would hold; used only as the
out-of-bounds default of the model's list indexing (the source's `Vec`
indexing panics out of bounds; every theorem below evaluates it in bounds). -/
def zeroQ : Vec3 ℚ := ⟨0, 0, 0⟩

/-- The degeneracy test applied to one face of a mesh, with the three vertex
lookups `self.vertices[face.vertices[i]]` of `validate`. -/
def faceDegenerate (vs : List (Vec3 ℚ)) (f : IndexedTriangle ℚ) : Bool :=
  triAreaBelowEps (vs.getD f.i0 zeroQ) (vs.getD f.i1 zeroQ) (vs.getD f.i2 zeroQ)

/-- The failures of `IndexedMesh::validate`. -/
inductive ValErr where
  | zeroArea (fi : Nat)
  | unmatchedEdge (fi i1 i2 : Nat)
deriving DecidableEq, Repr

/-- The `unconnected_edges` map: directed edge `(u, v)` to the
`(face index, edge position, edge position)` that inserted it.  Modelled as an
association list (`HashMap` semantics: membership, lookup, removal and
replace-on-insert are order-independent). -/
abbrev EdgeMap := List ((Nat × Nat) × (Nat × Nat × Nat))

/-- `HashMap::contains_key`. -/
def emContains (m : EdgeMap) (k : Nat × Nat) : Bool :=
  m.any (fun e => decide (e.1 = k))

/-- `HashMap::remove`. -/
def emRemove (m : EdgeMap) (k : Nat × Nat) : EdgeMap :=
  m.filter (fun e => ! decide (e.1 = k))

/-- `HashMap::insert` (replacing the value when the key is present). -/
def emInsert (m : EdgeMap) (k : Nat × Nat) (v : Nat × Nat × Nat) : EdgeMap :=
  if emContains m k then m.map (fun e => if e.1 = k then (k, v) else e)
  else m ++ [(k, v)]

/-- One iteration of `for i in 0..3` in `validate`: directed edge
`(face.vertices[i], face.vertices[(i + 1) % 3])`; remove the opposite edge if
present, else insert this one (`Fin 3` addition is the `% 3` wrap-around). -/
def edgeStep {F : Type} (fi : Nat) (face : IndexedTriangle F) (m : EdgeMap)
    (i : Fin 3) : EdgeMap :=
  let u := face.idx i
  let v := face.idx (i + 1)
  if emContains m (v, u) then emRemove m (v, u)
  else emInsert m (u, v) (fi, i.val, (i + 1).val)

/-- The three directed edges of face `fi`, in loop order. -/
def processEdges {F : Type} (fi : Nat) (face : IndexedTriangle F) (m : EdgeMap) :
    EdgeMap :=
  [(0 : Fin 3), 1, 2].foldl (edgeStep fi face) m

/-- The loop of `validate` over `self.faces.iter().enumerate()`: per face,
first the zero-area check (failing immediately with the face index), then the
three edge updates. -/
def validateGo (vs : List (Vec3 ℚ)) : Nat → List (IndexedTriangle ℚ) → EdgeMap →
    Except ValErr EdgeMap
  | _, [], m => .ok m
  | fi, face :: rest, m =>
    if faceDegenerate vs face then .error (.zeroArea fi)
    else validateGo vs (fi + 1) rest (processEdges fi face m)

/-- The pure edge bookkeeping of `validate` with the zero-area check ignored:
what the `unconnected_edges` map holds after all faces are processed. -/
def edgeFold {F : Type} : Nat → List (IndexedTriangle F) → EdgeMap → EdgeMap
  | _, [], m => m
  | fi, face :: rest, m => edgeFold (fi + 1) rest (processEdges fi face m)

/-- `IndexedMesh::validate`: run the per-face loop from face `0` with an empty
map; on success, fail with `unmatchedEdge` naming one remaining entry's value
if any remains, else succeed.  (The source picks the reported entry by
`unconnected_edges.values().next()`, an unspecified `HashMap` iteration order;
the model picks the oldest entry.  No theorem below depends on which entry is
picked, only on whether one exists.) -/
def validate (mesh : IndexedMesh ℚ) : Except ValErr Unit :=
  match validateGo mesh.vertices 0 mesh.faces [] with
  | .error e => .error e
  | .ok m =>
    match m with
    | [] => .ok ()
    | (_, fi, i1, i2) :: _ => .error (.unmatchedEdge fi i1 i2)

/-- No face of the mesh fails the zero-area check. -/
def meshNonDegenerate (mesh : IndexedMesh ℚ) : Bool :=
  mesh.faces.all (fun f => ! faceDegenerate mesh.vertices f)

/-- Every face index of the mesh is a valid index into its vertex list (the
invariant the indexer establishes and `validate` trusts). -/
def meshInBounds (mesh : IndexedMesh ℚ) : Bool :=
  mesh.faces.all (fun f =>
    decide (f.i0 < mesh.vertices.length) && decide (f.i1 < mesh.vertices.length) &&
      decide (f.i2 < mesh.vertices.length))

/-- A regular tetrahedron mesh over the four unit-simplex corners, wound
consistently outward: every directed edge is matched by its reverse on the
adjacent face. -/
def tetraMesh : IndexedMesh ℚ :=
  ⟨[⟨0, 0, 0⟩, ⟨1, 0, 0⟩, ⟨0, 1, 0⟩, ⟨0, 0, 1⟩],
   [⟨⟨0, 0, -1⟩, 0, 2, 1⟩, ⟨⟨0, -1, 0⟩, 0, 1, 3⟩, ⟨⟨1, 1, 1⟩, 1, 2, 3⟩,
    ⟨⟨-1, 0, 0⟩, 0, 3, 2⟩]⟩

/-- The tetrahedron with its last face removed: a hole. -/
def tetraHole : IndexedMesh ℚ :=
  ⟨tetraMesh.vertices, tetraMesh.faces.take 3⟩

/-- A mesh whose face `0` is a sound triangle and whose face `1` repeats a
vertex (zero area); its edges would pair up with face `0`'s if recorded. -/
def degenMesh : IndexedMesh ℚ :=
  ⟨[⟨0, 0, 0⟩, ⟨1, 0, 0⟩, ⟨0, 1, 0⟩],
   [⟨⟨0, 0, 1⟩, 0, 1, 2⟩, ⟨⟨0, 0, -1⟩, 2, 1, 1⟩]⟩

/-! ## The indexer `as_indexed_triangles`

Components are `f32` bit patterns: the source keys its vertex map on
`transmute::<[f32; 3], [u32; 3]>(vertex.0)`, the componentwise bit pattern, so
two vertices are merged exactly when the model's `Vec3 Nat` values are
equal. -/

/-- The fold state of `as_indexed_triangles`: the output vertex list and the
`vertex_to_index` hash map (an association list; only lookup and fresh
insertion are used, both order-independent). -/
structure IdxState where
  vertices : List (Vec3 Nat)
  vmap : List (Vec3 Nat × Nat)
deriving DecidableEq, Repr

/-- `HashMap::get` on the vertex map. -/
def vmapLookup : List (Vec3 Nat × Nat) → Vec3 Nat → Option Nat
  | [], _ => none
  | (k, i) :: r, v => if k = v then some i else vmapLookup r v

/-- One vertex of the indexer loop:
`vertex_to_index.entry(bitpattern).or_insert_with(|| vertices.len())`, then
`if index == vertices.len() { vertices.push(*vertex) }`. -/
def indexVertex (st : IdxState) (v : Vec3 Nat) : IdxState × Nat :=
  match vmapLookup st.vmap v with
  | some i => (st, i)
  | none =>
    (⟨st.vertices ++ [v], st.vmap ++ [(v, st.vertices.length)]⟩, st.vertices.length)

/-- One triangle of the indexer loop: resolve the three vertices in order and
emit the `IndexedTriangle` with the triangle's normal. -/
def indexTriangle (st : IdxState) (t : Triangle Nat) : IdxState × IndexedTriangle Nat :=
  let (st0, j0) := indexVertex st t.v0
  let (st1, j1) := indexVertex st0 t.v1
  let (st2, j2) := indexVertex st1 t.v2
  (st2, ⟨t.normal, j0, j1, j2⟩)

/-- The stream fold of `as_indexed_triangles`: `for t in self { let t = t?;
… }` — the first stream error is propagated, discarding everything. -/
def asIndexedGo : List (Except BinErr (Triangle Nat)) → IdxState →
    List (IndexedTriangle Nat) → Except BinErr (IndexedMesh Nat)
  | [], st, acc => .ok ⟨st.vertices, acc⟩
  | .error e :: _, _, _ => .error e
  | .ok t :: rest, st, acc =>
    let (st', it) := indexTriangle st t
    asIndexedGo rest st' (acc ++ [it])

/-- `TriangleIterator::as_indexed_triangles`, starting from empty state. -/
def as_indexed_triangles (stream : List (Except BinErr (Triangle Nat))) :
    Except BinErr (IndexedMesh Nat) :=
  asIndexedGo stream ⟨[], []⟩ []

/-- The nine vertex occurrences of a triangle stream, in arrival order. -/
def triVerts {F : Type} (t : Triangle F) : List (Vec3 F) := [t.v0, t.v1, t.v2]

/-- All vertex occurrences of a stream, in arrival order. -/
def streamVerts (ts : List (Triangle Nat)) : List (Vec3 Nat) :=
  ts.flatMap triVerts

/-- Specification-side deduplication: keep the first occurrence of each
element, in order (the spec's "preserves first-occurrence order of distinct
vertices"). -/
def firstDedup {α : Type} [DecidableEq α] : List α → List α
  | [] => []
  | a :: l => a :: (firstDedup l).filter (fun b => ! decide (b = a))

/-- One step of first-occurrence collection: what the indexer does to the
vertex list for one incoming vertex. -/
def collect {α : Type} [DecidableEq α] (vs : List α) (v : α) : List α :=
  if v ∈ vs then vs else vs ++ [v]

/-- Index of the first occurrence of `v` in a list. -/
def firstIdx {α : Type} [DecidableEq α] : List α → α → Option Nat
  | [], _ => none
  | a :: l, v => if a = v then some 0 else (firstIdx l v).map (· + 1)

/-- Every face of `mesh` at offset `off + j` resolves, index for index, to the
bit-exact vertices of the `j`-th stream triangle, with its normal. -/
def ResolvesAll (ts : List (Triangle Nat)) (mesh : IndexedMesh Nat) (off : Nat) :
    Prop :=
  ∀ j t, ts[j]? = some t →
    ∃ f, mesh.faces[off + j]? = some f ∧ f.normal = t.normal ∧
      ∀ k : Fin 3, mesh.vertices[f.idx k]? = some (t.vtx k)

/-- The bit pattern of `-0.0f32` is `0x80000000`; `0.0f32` is `0`. -/
def negZeroPat : Nat := 2147483648

/-- A triangle whose first two vertices are `(0.0, 0, 0)` and `(-0.0, 0, 0)`:
equal as floats, distinct as bit patterns. -/
def signedZeroTri : Triangle Nat :=
  ⟨⟨0, 0, 0⟩, ⟨0, 0, 0⟩, ⟨negZeroPat, 0, 0⟩, ⟨1, 0, 0⟩⟩

/-! ## The format probe `AsciiStlReader::probe`

`BufRead::read_line` reads bytes up to and including the first `\n` (or to
end of stream) and fails iff they are not valid UTF-8; on an in-memory source
that is the only failure it can produce.  `Seek::seek(SeekFrom::Start(0))`
always succeeds on an in-memory source. -/

/-- A UTF-8 continuation byte. -/
def contByte (b : Nat) : Bool := 128 ≤ b && b < 192

/-- Validity of a byte list as UTF-8 (RFC 3629 table: no overlong forms, no
surrogates, nothing above `U+10FFFF`), the check `read_line` applies. -/
def validUtf8 : List Nat → Bool
  | [] => true
  | b :: rest =>
    if b < 128 then validUtf8 rest
    else if 194 ≤ b ∧ b ≤ 223 then
      match rest with
      | c :: r => contByte c && validUtf8 r
      | [] => false
    else if b = 224 then
      match rest with
      | c :: d :: r => (160 ≤ c && c ≤ 191) && contByte d && validUtf8 r
      | _ => false
    else if (225 ≤ b ∧ b ≤ 236) ∨ b = 238 ∨ b = 239 then
      match rest with
      | c :: d :: r => contByte c && contByte d && validUtf8 r
      | _ => false
    else if b = 237 then
      match rest with
      | c :: d :: r => (128 ≤ c && c ≤ 159) && contByte d && validUtf8 r
      | _ => false
    else if b = 240 then
      match rest with
      | c :: d :: e :: r => (144 ≤ c && c ≤ 191) && contByte d && contByte e && validUtf8 r
      | _ => false
    else if 241 ≤ b ∧ b ≤ 243 then
      match rest with
      | c :: d :: e :: r => contByte c && contByte d && contByte e && validUtf8 r
      | _ => false
    else if b = 244 then
      match rest with
      | c :: d :: e :: r => (128 ≤ c && c ≤ 143) && contByte d && contByte e && validUtf8 r
      | _ => false
    else false
termination_by l => l.length
decreasing_by all_goals simp_arith

/-- The bytes of the first line: everything up to and including the first
line feed, or everything when there is none. -/
def takeLine : List Nat → List Nat
  | [] => []
  | b :: r => if b = 10 then [10] else b :: takeLine r

/-- `read_line` from the cursor position: the first line's bytes, or an error
when they are not valid UTF-8. -/
def read_line (c : ByteCursor) : Except Unit (List Nat) :=
  let line := takeLine (c.bytes.drop c.pos)
  if validUtf8 line then .ok line else .error ()

/-- The outcomes of `AsciiStlReader::probe`. -/
inductive ProbeErr where
  | ioError
  | notAscii
deriving DecidableEq, Repr

/-- The bytes of the literal `"solid "`. -/
def solidBytes : List Nat := [115, 111, 108, 105, 100, 32]

/-- `AsciiStlReader::probe`: read the first line, seek back to offset `0`
before evaluating the read result, report a read failure after the seek, else
accept iff the line starts with `"solid "`. -/
def probe (c : ByteCursor) : Except ProbeErr Unit × ByteCursor :=
  let r := read_line c
  let c' : ByteCursor := ⟨c.bytes, 0⟩
  match r with
  | .error _ => (.error .ioError, c')
  | .ok line =>
    if solidBytes.isPrefixOf line then (.ok (), c')
    else (.error .notAscii, c')

/-- `create_stl_reader`'s format choice: the ASCII decoder iff `probe`
succeeds (from the start of the source), the binary decoder on any `Err`. -/
def selectsAscii (bytes : List Nat) : Bool :=
  match (probe ⟨bytes, 0⟩).1 with
  | .ok _ => true
  | .error _ => false

/-! ## The ASCII decoder

Text is modelled as `List Char`.  A token is a `List Char`; a tokenized line
is a list of tokens.  `f32` literal parsing follows the documented grammar of
`f32::from_str` ("nan" / "inf" / "infinity" case-insensitively with optional
sign, else an optionally signed decimal with optional fraction and exponent);
its numeric value is kept as an exact rational (no rounding), with the
round-to-infinity overflow boundary idealised at `2 ^ 128`. -/

/-- A whitespace-separated token. -/
abbrev Tok := List Char

/-- A tokenized line. -/
abbrev TokLine := List Tok

/-- The segments of a character stream between line feeds. -/
def splitNl : List Char → List (List Char)
  | [] => [[]]
  | c :: r =>
    if c = '\n' then [] :: splitNl r
    else
      match splitNl r with
      | l :: ls => (c :: l) :: ls
      | [] => [[c]]

/-- `BufRead::lines`: split at `\n`, yield no line for a trailing terminator,
strip one trailing `\r` from each line. -/
def charLines (cs : List Char) : List (List Char) :=
  let parts := splitNl cs
  let parts :=
    match parts.getLast? with
    | some [] => parts.dropLast
    | _ => parts
  parts.map (fun l => if l.getLast? = some '\r' then l.dropLast else l)

/-- Accumulator loop of the whitespace tokenizer: `cur` holds the current
token's characters in reverse. -/
def tokenizeWSAux : List Char → Tok → List Tok
  | [], cur => if cur.isEmpty then [] else [cur.reverse]
  | c :: r, cur =>
    if c.isWhitespace then
      if cur.isEmpty then tokenizeWSAux r [] else cur.reverse :: tokenizeWSAux r []
    else tokenizeWSAux r (c :: cur)

/-- `str::split_whitespace` collected: maximal runs of non-whitespace, empty
runs dropped. -/
def tokenizeWS (cs : List Char) : List Tok := tokenizeWSAux cs []

/-- The characters of `"solid "`. -/
def solidTag : List Char := ['s', 'o', 'l', 'i', 'd', ' ']

/-- Keyword tokens of the grammar. -/
def endsolidTok : Tok := ['e', 'n', 'd', 's', 'o', 'l', 'i', 'd']

/-- The `facet` keyword. -/
def facetTok : Tok := ['f', 'a', 'c', 'e', 't']

/-- The `normal` keyword. -/
def normalTok : Tok := ['n', 'o', 'r', 'm', 'a', 'l']

/-- The `vertex` keyword. -/
def vertexTok : Tok := ['v', 'e', 'r', 't', 'e', 'x']

/-- The `outer loop` line. -/
def outerLoopLine : TokLine := [['o', 'u', 't', 'e', 'r'], ['l', 'o', 'o', 'p']]

/-- The `endloop` keyword. -/
def endloopTok : Tok := ['e', 'n', 'd', 'l', 'o', 'o', 'p']

/-- The `endfacet` keyword. -/
def endfacetTok : Tok := ['e', 'n', 'd', 'f', 'a', 'c', 'e', 't']

/-- A parsed `f32` literal: a finite value, a NaN, or an infinity. -/
inductive FVal where
  | finite (q : ℚ)
  | nan
  | inf (neg : Bool)
deriving DecidableEq, Repr

/-- Whether a parsed value is finite (`f32::is_finite`). -/
def FVal.isFin : FVal → Bool
  | .finite _ => true
  | _ => false

/-- Strip one leading sign, reporting whether it was `-`. -/
def stripSign (cs : List Char) : Bool × List Char :=
  match cs with
  | [] => (false, [])
  | c :: r => if c = '-' then (true, r) else if c = '+' then (false, r) else (false, cs)

/-- The value of an all-digit run (junk-total; guarded by digit checks). -/
def digitsNatD (cs : List Char) : Nat :=
  cs.foldl (fun acc c => 10 * acc + (c.toNat - 48)) 0

/-- The value of a nonempty all-digit run, `none` otherwise. -/
def digitsToNat : List Char → Option Nat
  | [] => none
  | cs => if cs.all Char.isDigit then some (digitsNatD cs) else none

/-- The unsigned mantissa: `digits [. digits?]` or `. digits` (at least one
digit overall, at most one point). -/
def parseMantissa (cs : List Char) : Option ℚ :=
  let ip := cs.takeWhile (fun c => c != '.')
  match cs.dropWhile (fun c => c != '.') with
  | [] => (digitsToNat ip).map (fun n => (n : ℚ))
  | _ :: fp =>
    if fp.contains '.' then none
    else if ip.isEmpty && fp.isEmpty then none
    else if ip.all Char.isDigit && fp.all Char.isDigit then
      some ((digitsNatD ip : ℚ) + (digitsNatD fp : ℚ) / 10 ^ fp.length)
    else none

/-- `"nan"`. -/
def nanChars : List Char := ['n', 'a', 'n']

/-- `"inf"`. -/
def infChars : List Char := ['i', 'n', 'f']

/-- `"infinity"`. -/
def infinityChars : List Char := ['i', 'n', 'f', 'i', 'n', 'i', 't', 'y']

/-- `f32::from_str` on a token. -/
def parseF32 (cs : List Char) : Option FVal :=
  let (neg, body) := stripSign cs
  let low := body.map Char.toLower
  if low = nanChars then some .nan
  else if low = infChars ∨ low = infinityChars then some (.inf neg)
  else
    let mant := body.takeWhile (fun c => c != 'e' && c != 'E')
    let expPart := body.dropWhile (fun c => c != 'e' && c != 'E')
    let expOpt : Option Int :=
      match expPart with
      | [] => some 0
      | _ :: ec =>
        let (eneg, ds) := stripSign ec
        (digitsToNat ds).map (fun n => if eneg then -(n : Int) else (n : Int))
    match parseMantissa mant, expOpt with
    | some m, some e =>
      let q : ℚ := (if neg then -m else m) * (10 : ℚ) ^ e
      if 2 ^ 128 ≤ |q| then some (.inf neg) else some (.finite q)
    | _, _ => none

/-- The failures of the ASCII decoder. -/
inductive AsciiErr where
  | emptyFile
  | notSolid
  | eofNoFacet
  | invalidFacetHeader (line : TokLine)
  | parseFloat
  | nonFinite (f : FVal)
  | eofVertex
  | invalidVertexLine (line : TokLine)
  | eofExpecting (what : TokLine)
  | expectMismatch (what got : TokLine)
deriving DecidableEq, Repr

/-- `AsciiStlReader::tokens_to_f32`: each token must parse
(`InvalidData` from the `ParseFloatError` otherwise) and be finite
(`InvalidData` naming the value otherwise). -/
def tokens_to_f32 : List Tok → Except AsciiErr (List ℚ)
  | [] => .ok []
  | tok :: rest =>
    match parseF32 tok with
    | none => .error .parseFloat
    | some (.finite q) =>
      match tokens_to_f32 rest with
      | .error e => .error e
      | .ok qs => .ok (q :: qs)
    | some bad => .error (.nonFinite bad)

/-- Three parsed components as a vector (callers pass exactly three). -/
def vec3OfList (qs : List ℚ) : Vec3 ℚ := ⟨qs.getD 0 0, qs.getD 1 0, qs.getD 2 0⟩

/-- `AsciiStlReader::expect_static`. -/
def expect_static (lines : List TokLine) (expectation : TokLine) :
    Except AsciiErr (List TokLine) :=
  match lines with
  | [] => .error (.eofExpecting expectation)
  | l :: rest =>
    if l = expectation then .ok rest else .error (.expectMismatch expectation l)

/-- One `vertex f32 f32 f32` line of `next_face`. -/
def readVertexLine (lines : List TokLine) :
    Except AsciiErr (Vec3 ℚ × List TokLine) :=
  match lines with
  | [] => .error .eofVertex
  | l :: rest =>
    match l with
    | [w, t1, t2, t3] =>
      if w = vertexTok then
        match tokens_to_f32 [t1, t2, t3] with
        | .error e => .error e
        | .ok qs => .ok (vec3OfList qs, rest)
      else .error (.invalidVertexLine l)
    | _ => .error (.invalidVertexLine l)

/-- `AsciiStlReader::next_face`: one `facet … endfacet` block, or `none` on
`endsolid`.  No triangle is produced on any failure path. -/
def ascii_next_face (lines : List TokLine) :
    Except AsciiErr (Option (Triangle ℚ) × List TokLine) :=
  match lines with
  | [] => .error .eofNoFacet
  | header :: rest =>
    if header.head? = some endsolidTok then .ok (none, rest)
    else
      match header with
      | [w1, w2, t0, t1, t2] =>
        if w1 = facetTok ∧ w2 = normalTok then
          match tokens_to_f32 [t0, t1, t2] with
          | .error e => .error e
          | .ok ns =>
            match expect_static rest outerLoopLine with
            | .error e => .error e
            | .ok r1 =>
              match readVertexLine r1 with
              | .error e => .error e
              | .ok (va, r2) =>
                match readVertexLine r2 with
                | .error e => .error e
                | .ok (vb, r3) =>
                  match readVertexLine r3 with
                  | .error e => .error e
                  | .ok (vc, r4) =>
                    match expect_static r4 [endloopTok] with
                    | .error e => .error e
                    | .ok r5 =>
                      match expect_static r5 [endfacetTok] with
                      | .error e => .error e
                      | .ok r6 => .ok (some ⟨vec3OfList ns, va, vb, vc⟩, r6)
        else .error (.invalidFacetHeader header)
      | _ => .error (.invalidFacetHeader header)

/-- `AsciiStlReader::create_triangle_iterator`: the first line must exist and
start with `"solid "`; the remaining lines are tokenized, empty lines
dropped. -/
def createAscii (cs : List Char) : Except AsciiErr (List TokLine) :=
  match charLines cs with
  | [] => .error .emptyFile
  | first :: rest =>
    if solidTag.isPrefixOf first then
      .ok ((rest.map tokenizeWS).filter (fun l => ! l.isEmpty))
    else .error .notSolid

/-- Constructing the ASCII reader and asking it for its first face: the
triangle it yields, `none` at `endsolid`, or the first error. -/
def firstAsciiFace (cs : List Char) : Except AsciiErr (Option (Triangle ℚ)) :=
  match createAscii cs with
  | .error e => .error e
  | .ok lines =>
    match ascii_next_face lines with
    | .error e => .error e
    | .ok (t, _) => .ok t

/-- The invariant tying the indexer's hash map to its vertex list: the map
sends a bit pattern to the index of its first occurrence. -/
def VmapInv (st : IdxState) : Prop :=
  ∀ w, vmapLookup st.vmap w = firstIdx st.vertices w

/-! ## Theorems -/

theorem validateGo_ok_of_nondegen (vs : List (Vec3 ℚ)) :
    ∀ (l : List (IndexedTriangle ℚ)) (fi : Nat) (m : EdgeMap),
      (∀ f ∈ l, faceDegenerate vs f = false) →
      validateGo vs fi l m = .ok (edgeFold fi l m) := by
  intro l
  induction l with
  | nil => intro fi m _; rfl
  | cons f rest ih =>
    intro fi m h
    have hf : faceDegenerate vs f = false := h f (List.mem_cons_self f rest)
    simp only [validateGo, edgeFold, hf, Bool.false_eq_true, if_false]
    exact ih (fi + 1) (processEdges fi f m) fun g hg => h g (List.mem_cons_of_mem f hg)

theorem validateGo_first_degen (vs : List (Vec3 ℚ)) :
    ∀ (l : List (IndexedTriangle ℚ)) (j fi : Nat) (m : EdgeMap)
      (f : IndexedTriangle ℚ),
      l[j]? = some f → faceDegenerate vs f = true →
      (∀ k g, k < j → l[k]? = some g → faceDegenerate vs g = false) →
      validateGo vs fi l m = .error (.zeroArea (fi + j)) := by
  intro l
  induction l with
  | nil => intro j fi m f hj _ _; simp at hj
  | cons a rest ih =>
    intro j fi m f hj hdeg hpre
    cases j with
    | zero =>
      have ha : a = f := by simpa using hj
      subst ha
      simp [validateGo, hdeg]
    | succ n =>
      have ha : faceDegenerate vs a = false :=
        hpre 0 a (Nat.succ_pos n) (by simp)
      simp only [validateGo, ha, Bool.false_eq_true, if_false]
      have := ih n (fi + 1) (processEdges fi a m) f (by simpa using hj) hdeg
        (fun k g hk hkg => hpre (k + 1) g (Nat.succ_lt_succ hk) (by simpa using hkg))
      rw [this]
      congr 2
      omega

/-- C5.  The claim: `PartialEq` on `Vec3<f32>` returns `true` iff each pair of
corresponding components differs by less than `1e-6`.  The code: the `eq_e!`
macro expands to `($v2 - $v2).abs() < $ep`, which never looks at the left
operand, so `(0,0,0)` and `(1,1,1)` compare equal although their components
differ by `1`, far above the epsilon. -/
theorem vec3_partial_eq_ignores_lhs :
    vec3PartialEq ⟨0, 0, 0⟩ ⟨1, 1, 1⟩ = true ∧
      ¬(|(1 : ℚ) - 0| < DEFAULT_EPSILON) := by
  constructor
  · unfold vec3PartialEq eq_e DEFAULT_EPSILON
    norm_num
  · unfold DEFAULT_EPSILON
    norm_num

/-- C10.  `validate` on a mesh with an empty face list succeeds, whatever the
vertex list holds: the face loop runs zero times and the edge map stays
empty. -/
theorem validate_empty_faces_ok (vs : List (Vec3 ℚ)) :
    validate ⟨vs, []⟩ = .ok () := rfl

set_option maxRecDepth 8000 in
/-- C1.  The claim: `decode (encode ts)` is bit-identical to `ts`.  The code:
`next_face` reads the two-byte attribute field with a four-byte buffer
(`let mut u16_buf = [0; 4]`), so from the second record on every read is two
bytes late; encoding the two-triangle list `[zeroTri, oneTri]` and decoding
the bytes yields `[zeroTri, zeroTri]` — the `1` bit pattern of the second
triangle's normal is lost. -/
theorem binary_roundtrip_misaligned :
    binaryDecodeAll (write_stl [zeroTri, oneTri]) = .ok [zeroTri, zeroTri] ∧
      zeroTri ≠ oneTri := by
  constructor
  · rfl
  · decide

set_option maxRecDepth 8000 in
/-- C2.  The claim: a source with fewer bytes than the header, count or a
record requires fails with a truncated-input error at the missing data.  The
code: only the 80-byte header is read with `read_exact`; the count and all
record fields use plain `read` with the byte count ignored, so an 84-byte
source (header plus a count of 1, no record at all) silently decodes to one
all-zero triangle instead of failing. -/
theorem binary_short_read_silent :
    binaryDecodeAll (List.replicate 80 0 ++ [1, 0, 0, 0]) = .ok [zeroTri] ∧
      binaryDecodeAll (List.replicate 79 0) = .error .unexpectedEof := by
  constructor
  · rfl
  · rfl

/-- C3.  With every face passing the zero-area check, `validate` succeeds iff
the remove-opposite-else-insert pass over all directed edges leaves the edge
map empty; the outward-wound tetrahedron validates, and dropping one face
makes validation fail with an unmatched-edge error naming a face index and
its local edge positions. -/
theorem validate_edge_matching :
    (∀ mesh : IndexedMesh ℚ, meshNonDegenerate mesh = true →
        (validate mesh = .ok () ↔ edgeFold 0 mesh.faces [] = [])) ∧
      validate tetraMesh = .ok () ∧
      (∃ fi i1 i2, validate tetraHole = .error (.unmatchedEdge fi i1 i2)) := by
  have hndT : ∀ f ∈ tetraMesh.faces, faceDegenerate tetraMesh.vertices f = false := by
    intro f hf
    simp only [tetraMesh] at hf
    fin_cases hf <;>
      (unfold faceDegenerate triAreaBelowEps normSq cross subv zeroQ f32EPS tetraMesh
       rw [decide_eq_false_iff_not]
       norm_num)
  have hndH : ∀ f ∈ tetraHole.faces, faceDegenerate tetraHole.vertices f = false := by
    intro f hf
    have : f ∈ tetraMesh.faces := List.mem_of_mem_take hf
    exact hndT f this
  refine ⟨?_, ?_, ⟨0, 0, 1, ?_⟩⟩
  · intro mesh h
    have hl : ∀ f ∈ mesh.faces, faceDegenerate mesh.vertices f = false := by
      intro f hf
      have := (List.all_eq_true.mp h) f hf
      simpa using this
    unfold validate
    rw [validateGo_ok_of_nondegen mesh.vertices mesh.faces 0 [] hl]
    cases hE : edgeFold 0 mesh.faces [] with
    | nil => simp
    | cons e t =>
      obtain ⟨k, fi, i1, i2⟩ := e
      simp
  · unfold validate
    rw [validateGo_ok_of_nondegen tetraMesh.vertices tetraMesh.faces 0 [] hndT]
    rw [(by decide : edgeFold 0 tetraMesh.faces ([] : EdgeMap) = [])]
  · unfold validate
    rw [validateGo_ok_of_nondegen tetraHole.vertices tetraHole.faces 0 [] hndH]
    rw [(by decide : edgeFold 0 tetraHole.faces ([] : EdgeMap) =
      [((0, 2), 0, 0, 1), ((3, 0), 1, 2, 0), ((2, 3), 2, 1, 2)])]

/-- C3 witness: the general equivalence applied to the concrete
tetrahedron. -/
theorem validate_edge_matching_witness :
    validate tetraMesh = .ok () ↔ edgeFold 0 tetraMesh.faces [] = [] :=
  validate_edge_matching.1 tetraMesh (by
    unfold meshNonDegenerate
    rw [List.all_eq_true]
    intro f hf
    rw [Bool.not_eq_true']
    simp only [tetraMesh] at hf
    fin_cases hf <;>
      (unfold faceDegenerate triAreaBelowEps normSq cross subv zeroQ f32EPS tetraMesh
       rw [decide_eq_false_iff_not]
       norm_num))

/-- C6.  `validate` fails with `zeroArea j` naming the first face `j` whose
computed area is below `f32::EPSILON`, before that face's edges are recorded:
the error does not depend on any edge bookkeeping. -/
theorem validate_zero_area_first (mesh : IndexedMesh ℚ) (j : Nat)
    (f : IndexedTriangle ℚ) (hj : mesh.faces[j]? = some f)
    (hdeg : faceDegenerate mesh.vertices f = true)
    (hpre : ∀ k g, k < j → mesh.faces[k]? = some g →
      faceDegenerate mesh.vertices g = false) :
    validate mesh = .error (.zeroArea j) := by
  unfold validate
  rw [validateGo_first_degen mesh.vertices mesh.faces j 0 [] f hj hdeg hpre]
  simp

/-- C6 witness: a mesh whose face `1` repeats a vertex is rejected as
`zeroArea 1` although its edges would pair with face `0`'s. -/
theorem takeLine_length_le : ∀ l : List Nat, (takeLine l).length ≤ l.length := by
  intro l
  induction l with
  | nil => simp [takeLine]
  | cons b r ih =>
    simp only [takeLine]
    split
    · simp
    · simpa using Nat.succ_le_succ ih

/-- C7.  `create_stl_reader` picks the ASCII decoder exactly when the first
line is read without failure (on an in-memory source: is valid UTF-8) and
starts with the literal `"solid "`; any shorter source, or any read failure,
falls through to the binary decoder. -/
theorem create_stl_reader_format_choice :
    (∀ bytes : List Nat,
        selectsAscii bytes = true ↔
          validUtf8 (takeLine bytes) = true ∧ solidBytes <+: takeLine bytes) ∧
      ∀ bytes : List Nat, bytes.length < 6 → selectsAscii bytes = false := by
  have hiff : ∀ bytes : List Nat,
      selectsAscii bytes = true ↔
        validUtf8 (takeLine bytes) = true ∧ solidBytes <+: takeLine bytes := by
    intro bytes
    unfold selectsAscii probe read_line
    simp only [List.drop_zero]
    cases hv : validUtf8 (takeLine bytes) with
    | false =>
      simp only [Bool.false_eq_true, if_false]
      constructor
      · intro h; exact absurd h (by simp)
      · rintro ⟨h, _⟩; exact absurd h (by simp [hv])
    | true =>
      simp only [if_true]
      cases hp : solidBytes.isPrefixOf (takeLine bytes) with
      | false =>
        simp only [Bool.false_eq_true, if_false]
        constructor
        · intro h; exact absurd h (by simp)
        · rintro ⟨_, h⟩
          rw [← List.isPrefixOf_iff_prefix] at h
          exact absurd h (by simp [hp])
      | true =>
        simp only [if_true]
        constructor
        · intro _
          constructor
          · trivial
          · rw [← List.isPrefixOf_iff_prefix]
            exact hp
        · intro _
          trivial
  refine ⟨hiff, ?_⟩
  intro bytes hlen
  cases hs : selectsAscii bytes with
  | false => rfl
  | true =>
    obtain ⟨_, hpre⟩ := (hiff bytes).mp hs
    have h6 : solidBytes.length ≤ (takeLine bytes).length := hpre.length_le
    have h7 : (takeLine bytes).length ≤ bytes.length := takeLine_length_le bytes
    simp [solidBytes] at h6
    omega

/-- C8.  Whatever the probe's outcome, the source is seeked back to byte
offset `0`; a failure of the first-line read is still reported, and only
after that seek (the model applies the seek to the returned state in every
branch before the read result is inspected). -/
theorem probe_restores_position :
    ∀ (bytes : List Nat) (p : Nat),
      (probe ⟨bytes, p⟩).2 = ⟨bytes, 0⟩ ∧
        (read_line ⟨bytes, p⟩ = .error () → (probe ⟨bytes, p⟩).1 = .error .ioError) := by
  intro bytes p
  constructor
  · unfold probe
    cases h : read_line ⟨bytes, p⟩ with
    | error e => simp [h]
    | ok line =>
      simp only [h]
      split <;> rfl
  · intro h
    unfold probe
    simp [h]

set_option maxHeartbeats 2000000 in
set_option maxRecDepth 8000 in
/-- C9.  `tokens_to_f32` fails whenever any token fails to parse or parses to
a non-finite value — it never returns a value list — and the claim's concrete
truncated input fails at the `NaN` vertex token with the invalid-data error
naming the non-finite value; no triangle is produced. -/
theorem ascii_rejects_non_finite :
    (∀ (toks : List Tok) (t : Tok), t ∈ toks →
        (parseF32 t = none ∨ ∃ f, parseF32 t = some f ∧ f.isFin = false) →
        ∃ e, tokens_to_f32 toks = .error e) ∧
      firstAsciiFace ("solid x\nfacet normal 1 0 0\n outer loop\n vertex 1 2 NaN\n".toList) =
        .error (.nonFinite .nan) := by
  constructor
  · intro toks
    induction toks with
    | nil => intro t ht _; simp at ht
    | cons t0 rest ih =>
      intro t ht hbad
      rcases List.mem_cons.mp ht with h0 | hr
      · subst h0
        rcases hbad with hn | ⟨f, hf, hfin⟩
        · exact ⟨.parseFloat, by simp [tokens_to_f32, hn]⟩
        · cases f with
          | finite q => simp [FVal.isFin] at hfin
          | nan => exact ⟨.nonFinite .nan, by simp [tokens_to_f32, hf]⟩
          | inf b => exact ⟨.nonFinite (.inf b), by simp [tokens_to_f32, hf]⟩
      · obtain ⟨e, he⟩ := ih t hr hbad
        cases hp : parseF32 t0 with
        | none => exact ⟨.parseFloat, by simp [tokens_to_f32, hp]⟩
        | some f =>
          cases f with
          | finite q => exact ⟨e, by simp [tokens_to_f32, hp, he]⟩
          | nan => exact ⟨.nonFinite .nan, by simp [tokens_to_f32, hp]⟩
          | inf b => exact ⟨.nonFinite (.inf b), by simp [tokens_to_f32, hp]⟩
  · have h1 : parseF32 ['1'] = some (.finite 1) := by
      simp +decide [parseF32, parseMantissa, digitsToNat, digitsNatD, stripSign,
        nanChars, infChars, infinityChars]
    have h0 : parseF32 ['0'] = some (.finite 0) := by
      simp +decide [parseF32, parseMantissa, digitsToNat, digitsNatD, stripSign,
        nanChars, infChars, infinityChars]
    have h2 : parseF32 ['2'] = some (.finite 2) := by
      simp +decide [parseF32, parseMantissa, digitsToNat, digitsNatD, stripSign,
        nanChars, infChars, infinityChars]
    have hN : parseF32 ['N', 'a', 'N'] = some .nan := by
      simp +decide [parseF32, stripSign, nanChars]
    have hca : createAscii
        ("solid x\nfacet normal 1 0 0\n outer loop\n vertex 1 2 NaN\n".toList) =
        .ok [[['f', 'a', 'c', 'e', 't'], ['n', 'o', 'r', 'm', 'a', 'l'], ['1'], ['0'], ['0']],
             [['o', 'u', 't', 'e', 'r'], ['l', 'o', 'o', 'p']],
             [['v', 'e', 'r', 't', 'e', 'x'], ['1'], ['2'], ['N', 'a', 'N']]] := by rfl
    unfold firstAsciiFace
    rw [hca]
    simp +decide [ascii_next_face, expect_static, readVertexLine, tokens_to_f32,
      h1, h0, h2, hN, vec3OfList, endsolidTok, facetTok, normalTok, vertexTok,
      outerLoopLine, endloopTok, endfacetTok]

theorem getElem?_mono {α : Type} : ∀ (l t : List α) (i : Nat) (a : α),
    l[i]? = some a → (l ++ t)[i]? = some a := by
  intro l
  induction l with
  | nil => intro t i a h; simp at h
  | cons x xs ih =>
    intro t i a h
    cases i with
    | zero => simpa using h
    | succ n =>
      simp only [List.cons_append, List.getElem?_cons_succ] at h ⊢
      exact ih t n a h

theorem getElem?_of_prefix {α : Type} {l1 l2 : List α} (h : l1 <+: l2) {i : Nat}
    {a : α} (hi : l1[i]? = some a) : l2[i]? = some a := by
  obtain ⟨t, rfl⟩ := h
  exact getElem?_mono l1 t i a hi

theorem firstIdx_eq_none {α : Type} [DecidableEq α] :
    ∀ (l : List α) (v : α), firstIdx l v = none ↔ v ∉ l := by
  intro l
  induction l with
  | nil => intro v; simp [firstIdx]
  | cons a l ih =>
    intro v
    simp only [firstIdx]
    by_cases h : a = v
    · subst h
      simp
    · rw [if_neg h]
      simp only [Option.map_eq_none', ih, List.mem_cons, not_or]
      constructor
      · intro hv; exact ⟨fun hva => h hva.symm, hv⟩
      · intro hv; exact hv.2

theorem firstIdx_getElem {α : Type} [DecidableEq α] :
    ∀ (l : List α) (v : α) (i : Nat), firstIdx l v = some i → l[i]? = some v := by
  intro l
  induction l with
  | nil => intro v i h; simp [firstIdx] at h
  | cons a l ih =>
    intro v i h
    simp only [firstIdx] at h
    by_cases hav : a = v
    · rw [if_pos hav] at h
      cases h
      simpa using hav
    · rw [if_neg hav] at h
      cases hj : firstIdx l v with
      | none => rw [hj] at h; simp at h
      | some j =>
        rw [hj, Option.map_some'] at h
        cases h
        simpa using ih v j hj

theorem firstIdx_append {α : Type} [DecidableEq α] :
    ∀ (l : List α) (v w : α),
      firstIdx (l ++ [v]) w =
        match firstIdx l w with
        | some i => some i
        | none => if v = w then some l.length else none := by
  intro l
  induction l with
  | nil => intro v w; simp [firstIdx]
  | cons a l ih =>
    intro v w
    simp only [List.cons_append, firstIdx, List.append_eq]
    by_cases haw : a = w
    · simp [haw]
    · rw [if_neg haw, if_neg haw, ih v w]
      cases hj : firstIdx l w with
      | none =>
        simp only []
        by_cases hvw : v = w <;> simp [hvw]
      | some j => simp

theorem vmapLookup_append :
    ∀ (m : List (Vec3 Nat × Nat)) (v : Vec3 Nat) (n : Nat) (w : Vec3 Nat),
      vmapLookup (m ++ [(v, n)]) w =
        match vmapLookup m w with
        | some i => some i
        | none => if v = w then some n else none := by
  intro m v n
  induction m with
  | nil => intro w; simp [vmapLookup]
  | cons e m ih =>
    intro w
    obtain ⟨k, i⟩ := e
    simp only [List.cons_append, vmapLookup, List.append_eq]
    by_cases h : k = w
    · simp [h]
    · rw [if_neg h, if_neg h, ih w]

theorem indexVertex_spec (st : IdxState) (v : Vec3 Nat) (h : VmapInv st) :
    VmapInv (indexVertex st v).1 ∧
      (indexVertex st v).1.vertices = collect st.vertices v ∧
      (indexVertex st v).1.vertices[(indexVertex st v).2]? = some v ∧
      st.vertices <+: (indexVertex st v).1.vertices := by
  unfold indexVertex
  cases hl : vmapLookup st.vmap v with
  | none =>
    have hv : v ∉ st.vertices := by
      have h0 := h v
      rw [hl] at h0
      exact (firstIdx_eq_none st.vertices v).mp h0.symm
    refine ⟨?_, ?_, ?_, ?_⟩
    · intro w
      show vmapLookup (st.vmap ++ [(v, st.vertices.length)]) w =
        firstIdx (st.vertices ++ [v]) w
      rw [vmapLookup_append, firstIdx_append, h w]
    · show st.vertices ++ [v] = collect st.vertices v
      simp [collect, hv]
    · show (st.vertices ++ [v])[st.vertices.length]? = some v
      simp
    · exact ⟨[v], rfl⟩
  | some i =>
    have hi : firstIdx st.vertices v = some i := by rw [← h v, hl]
    have hmem : v ∈ st.vertices := by
      by_contra hc
      rw [(firstIdx_eq_none st.vertices v).mpr hc] at hi
      exact Option.noConfusion hi
    refine ⟨h, ?_, ?_, List.prefix_refl _⟩
    · show st.vertices = collect st.vertices v
      simp [collect, hmem]
    · show st.vertices[i]? = some v
      exact firstIdx_getElem st.vertices v i hi

theorem indexTriangle_spec (st : IdxState) (t : Triangle Nat) (h : VmapInv st) :
    VmapInv (indexTriangle st t).1 ∧
      (indexTriangle st t).1.vertices = (triVerts t).foldl collect st.vertices ∧
      st.vertices <+: (indexTriangle st t).1.vertices ∧
      (indexTriangle st t).2.normal = t.normal ∧
      (∀ k : Fin 3,
        (indexTriangle st t).1.vertices[(indexTriangle st t).2.idx k]? =
          some (t.vtx k)) := by
  obtain ⟨h0inv, h0v, h0get, h0pre⟩ := indexVertex_spec st t.v0 h
  obtain ⟨h1inv, h1v, h1get, h1pre⟩ :=
    indexVertex_spec (indexVertex st t.v0).1 t.v1 h0inv
  obtain ⟨h2inv, h2v, h2get, h2pre⟩ :=
    indexVertex_spec ((indexVertex (indexVertex st t.v0).1 t.v1).1) t.v2 h1inv
  refine ⟨h2inv, ?_, ?_, rfl, ?_⟩
  · show ((indexVertex ((indexVertex (indexVertex st t.v0).1 t.v1).1) t.v2).1).vertices = _
    rw [h2v, h1v, h0v]
    simp [triVerts]
  · exact h0pre.trans (h1pre.trans h2pre)
  · intro k
    fin_cases k
    · exact getElem?_of_prefix (h1pre.trans h2pre) h0get
    · exact getElem?_of_prefix h2pre h1get
    · exact h2get

theorem asIndexedGo_spec :
    ∀ (ts : List (Triangle Nat)) (st : IdxState) (acc : List (IndexedTriangle Nat)),
      VmapInv st →
      ∃ mesh, asIndexedGo (ts.map Except.ok) st acc = .ok mesh ∧
        mesh.vertices = (streamVerts ts).foldl collect st.vertices ∧
        st.vertices <+: mesh.vertices ∧
        mesh.faces.length = acc.length + ts.length ∧
        (∀ i, i < acc.length → mesh.faces[i]? = acc[i]?) ∧
        ResolvesAll ts mesh acc.length := by
  intro ts
  induction ts with
  | nil =>
    intro st acc h
    refine ⟨⟨st.vertices, acc⟩, rfl, by simp [streamVerts], List.prefix_refl _,
      by simp, fun i hi => rfl, fun j t hj => by simp at hj⟩
  | cons t ts ih =>
    intro st acc h
    obtain ⟨hInv2, hverts, hpre2, hnorm, hres⟩ := indexTriangle_spec st t h
    obtain ⟨mesh, hgo, hv, hp, hlen, hacc, hR⟩ :=
      ih (indexTriangle st t).1 (acc ++ [(indexTriangle st t).2]) hInv2
    refine ⟨mesh, ?_, ?_, ?_, ?_, ?_, ?_⟩
    · show asIndexedGo (Except.ok t :: ts.map Except.ok) st acc = .ok mesh
      exact hgo
    · rw [hv, hverts]
      simp only [streamVerts, List.flatMap_cons, List.foldl_append]
    · exact hpre2.trans hp
    · rw [hlen]
      simp only [List.length_append, List.length_cons, List.length_nil]
      omega
    · intro i hi
      have hi' : i < (acc ++ [(indexTriangle st t).2]).length := by simp; omega
      rw [hacc i hi']
      have h1 := List.getElem?_eq_getElem (l := acc) hi
      rw [h1]
      exact getElem?_mono acc [(indexTriangle st t).2] i _ h1
    · intro j s hj
      cases j with
      | zero =>
        have hs : t = s := by simpa using hj
        subst hs
        refine ⟨(indexTriangle st t).2, ?_, hnorm, ?_⟩
        · have hi' : acc.length < (acc ++ [(indexTriangle st t).2]).length := by simp
          simp only [Nat.add_zero]
          rw [hacc acc.length hi']
          exact List.getElem?_concat_length acc _
        · intro k
          exact getElem?_of_prefix hp (hres k)
      | succ n =>
        obtain ⟨f, hf, hfn, hfr⟩ := hR n s (by simpa using hj)
        refine ⟨f, ?_, hfn, hfr⟩
        have harith : (acc ++ [(indexTriangle st t).2]).length + n = acc.length + (n + 1) := by
          simp
          omega
        rw [← harith]
        exact hf

theorem foldl_collect_firstDedup {α : Type} [DecidableEq α] :
    ∀ (l vs : List α),
      l.foldl collect vs = vs ++ (firstDedup l).filter (fun b => ! decide (b ∈ vs)) := by
  intro l
  induction l with
  | nil => intro vs; simp [firstDedup]
  | cons a l ih =>
    intro vs
    simp only [List.foldl_cons, firstDedup]
    rw [ih (collect vs a)]
    by_cases ha : a ∈ vs
    · have hcol : collect vs a = vs := by simp [collect, ha]
      rw [hcol]
      congr 1
      rw [List.filter_cons]
      have hpa : (! decide (a ∈ vs)) = false := by simp [ha]
      rw [hpa]
      simp only [Bool.false_eq_true, if_false]
      rw [List.filter_filter]
      apply List.filter_congr
      intro x hx
      by_cases hxv : x ∈ vs
      · simp [hxv]
      · have hxa : x ≠ a := fun hh => hxv (hh ▸ ha)
        simp [hxv, hxa]
    · have hcol : collect vs a = vs ++ [a] := by simp [collect, ha]
      rw [hcol]
      rw [List.filter_cons]
      have hpa : (! decide (a ∈ vs)) = true := by simp [ha]
      rw [hpa]
      simp only [if_true]
      rw [List.append_assoc]
      congr 1
      show [a] ++ _ = a :: _
      simp only [List.singleton_append, List.cons.injEq, true_and]
      rw [List.filter_filter]
      apply List.filter_congr
      intro x hx
      by_cases hxa : x = a
      · subst hxa; simp
      · by_cases hxv : x ∈ vs <;> simp [hxa, hxv]

theorem mem_firstDedup {α : Type} [DecidableEq α] :
    ∀ (l : List α) (v : α), v ∈ firstDedup l ↔ v ∈ l := by
  intro l
  induction l with
  | nil => intro v; simp [firstDedup]
  | cons a l ih =>
    intro v
    simp only [firstDedup, List.mem_cons, List.mem_filter, ih, Bool.not_eq_true',
      decide_eq_false_iff_not]
    constructor
    · rintro (rfl | ⟨hv, _⟩)
      · exact Or.inl rfl
      · exact Or.inr hv
    · rintro (rfl | hv)
      · exact Or.inl rfl
      · by_cases hva : v = a
        · exact Or.inl hva
        · exact Or.inr ⟨hv, hva⟩

theorem firstDedup_nodup {α : Type} [DecidableEq α] :
    ∀ l : List α, (firstDedup l).Nodup := by
  intro l
  induction l with
  | nil => simp [firstDedup]
  | cons a l ih =>
    simp only [firstDedup]
    refine List.nodup_cons.mpr ⟨?_, List.Nodup.filter _ ih⟩
    intro hmem
    have := (List.mem_filter.mp hmem).2
    simp at this

theorem firstDedup_length_card {α : Type} [DecidableEq α] (l : List α) :
    (firstDedup l).length = l.toFinset.card := by
  have h1 : (firstDedup l).toFinset = l.toFinset := by
    ext x
    simp [List.mem_toFinset, mem_firstDedup]
  rw [← h1]
  exact (List.toFinset_card_of_nodup (firstDedup_nodup l)).symm

/-- C4.  For every pure triangle stream the indexer succeeds and produces:
the deduplicated vertex list in first-occurrence order (so exactly as many
entries as there are distinct bit patterns), one face per triangle in arrival
order carrying its normal, and indices that resolve to the bit-exact original
vertices.  Merging is by bit pattern, so the `0.0` and `-0.0` patterns of
`signedZeroTri` receive distinct indices. -/
theorem as_indexed_triangles_dedups :
    (∀ ts : List (Triangle Nat),
        ∃ mesh, as_indexed_triangles (ts.map Except.ok) = .ok mesh ∧
          mesh.vertices = firstDedup (streamVerts ts) ∧
          mesh.vertices.length = (streamVerts ts).toFinset.card ∧
          mesh.faces.length = ts.length ∧
          ResolvesAll ts mesh 0) ∧
      as_indexed_triangles [Except.ok signedZeroTri] =
        .ok ⟨[⟨0, 0, 0⟩, ⟨negZeroPat, 0, 0⟩, ⟨1, 0, 0⟩],
             [⟨⟨0, 0, 0⟩, 0, 1, 2⟩]⟩ := by
  constructor
  · intro ts
    have hInv : VmapInv ⟨[], []⟩ := fun w => rfl
    obtain ⟨mesh, hgo, hv, _, hlen, _, hR⟩ := asIndexedGo_spec ts ⟨[], []⟩ [] hInv
    have hvd : mesh.vertices = firstDedup (streamVerts ts) := by
      rw [hv, foldl_collect_firstDedup]
      simp
    refine ⟨mesh, hgo, hvd, ?_, by simpa using hlen, hR⟩
    rw [hvd]
    exact firstDedup_length_card _
  · rfl

theorem validate_zero_area_first_witness :
    validate degenMesh = .error (.zeroArea 1) :=
  validate_zero_area_first degenMesh 1 ⟨⟨0, 0, -1⟩, 2, 1, 1⟩ rfl
    (by
      unfold faceDegenerate degenMesh triAreaBelowEps normSq cross subv zeroQ f32EPS
      norm_num)
    (fun k g hk hg => by
      have hk0 : k = 0 := Nat.lt_one_iff.mp hk
      subst hk0
      have hgv : g = ⟨⟨0, 0, 1⟩, 0, 1, 2⟩ := by
        simpa [degenMesh] using hg.symm
      subst hgv
      unfold faceDegenerate degenMesh triAreaBelowEps normSq cross subv zeroQ f32EPS
      rw [decide_eq_false_iff_not]
      norm_num)

end Stl
